import Mathlib

/-!
Verification development for the MINIROBO-HAMA spectrometer acquisition
driver.  The definitions below are a shallow embedding of the Python source
in `src/drivers/hama3_spectrometer.py` and `src/drivers/spectrometer.py`
(helper functions `split_cycles` / `calc_msl` appear in
`src/drivers/spectrometer.py`, documented there as coming from
`spec_xfus.py`).

Modelling conventions:
  * Python ints are `Int` (arbitrary precision, like Python).
  * Float data values are modelled exactly: a cycle value is either `NaN`
    or an exact rational (type `F` below); arithmetic and comparisons
    follow IEEE/numpy semantics (`NaN` propagates through arithmetic and
    through `np.min`/`np.max`; every ordered comparison with `NaN` is
    false).
  * Requested integration times are exact rationals; `round()` is
    Python 3 banker's rounding, embedded as `pyRound`.
  * DLL calls are abstracted by oracles: a register write is a `DllWrite`
    value and the oracle answers `"OK"` or an error string, exactly the
    shape produced by `get_error` in the source.
  * Log messages, sleeps and timestamps are not modelled; interpolated
    numbers inside error strings are elided (only `= "OK"` /`≠ "OK"`
    is ever observed by the driver's control flow).
-/

/-- Python 3 `round()` on an exact rational: round half to even
(banker's rounding), as used by `compute_st_pulses` in the source. -/
def pyRound (x : ℚ) : ℤ :=
  let f := ⌊x⌋
  let r := x - f
  if r < 1/2 then f
  else if 1/2 < r then f + 1
  else if f % 2 = 0 then f else f + 1

/-- Fuel-based loop body of `split_cycles` (src/drivers/spectrometer.py,
lines 41-57): `while ncy > 0: pack = min(ncy, max_ncy_per_meas); ...`.
With `1 ≤ maxPer` each iteration removes at least one cycle, so fuel
`ncy.toNat` always suffices; with `maxPer ≤ 0` the Python loop does not
terminate, a regime no claim touches. -/
def split_cycles_go (maxPer : ℤ) : ℕ → ℤ → List ℤ
  | 0, _ => []
  | fuel + 1, ncy =>
    if 0 < ncy then
      let pack := min ncy maxPer
      pack :: split_cycles_go maxPer fuel (ncy - pack)
    else []

/-- `split_cycles(max_ncy_per_meas, ncy)` from src/drivers/spectrometer.py:
splits a cycle count into ordered pack sizes.  The companion `info` string
returned by the source is purely descriptive (log text) and is not
modelled. -/
def split_cycles (maxPer ncy : ℤ) : List ℤ :=
  if ncy ≤ 0 then [] else split_cycles_go maxPer ncy.toNat ncy

/-- Camera (roe) parameter table entry, from the `cameras` global of
hama3_spectrometer.py.  `tpi_st_min` is keyed by sensor in the source;
here it is the value for the one supported sensor. -/
structure CameraParams where
  tpi_st_min : ℤ
  tpi_st_max : ℤ
  thp_st_min : ℤ
  tlp_st_min : ℤ
deriving DecidableEq, Repr

/-- The C13015-01 camera parameters from the source table. -/
def cameraC13015 : CameraParams :=
  { tpi_st_min := 4500, tpi_st_max := 4294967295, thp_st_min := 10, tlp_st_min := 200 }

/-- Detector (sensor) parameter table entry, from the `detectors` global of
hama3_spectrometer.py. -/
structure DetectorParams where
  tpi_st_min : ℤ
  thp_st_min : ℤ
  tlp_st_min : ℤ
  it_offset_clk : ℤ
deriving DecidableEq, Repr

/-- The S13496 sensor parameters from the source table. -/
def detectorS13496 : DetectorParams :=
  { tpi_st_min := 106, thp_st_min := 6, tlp_st_min := 100, it_offset_clk := 48 }

/-- The raw (unclamped) high period of the ST signal:
`int(round(integration_time_s * f_clk)) - int(it_offset_clk)` in
`compute_st_pulses`. -/
def raw_high_period (it_ms clock_frequency_mhz : ℚ) (sen : DetectorParams) : ℤ :=
  pyRound (it_ms / 1000 * (clock_frequency_mhz * 1000000)) - sen.it_offset_clk

/-- Result quadruple of `compute_st_pulses`. -/
structure StPulses where
  res : String
  high_period : ℤ
  low_period : ℤ
  line_cycle : ℤ
deriving DecidableEq, Repr

/-- `compute_st_pulses` from hama3_spectrometer.py (lines 996-1082).
The source threads a `high_period_res` message through the two high-period
clamps and returns `res = "NOK"` exactly when either clamp fired; the
line/low clamp messages only feed debug logging and are not part of the
returned status. -/
def compute_st_pulses (it_ms clock_frequency_mhz : ℚ)
    (cam : CameraParams) (sen : DetectorParams) : StPulses :=
  let high0 := raw_high_period it_ms clock_frequency_mhz sen
  let high1 := if high0 < cam.thp_st_min then cam.thp_st_min else high0
  let high2 := if high1 < sen.thp_st_min then sen.thp_st_min else high1
  let hlim : Bool := decide (high0 < cam.thp_st_min) || decide (high1 < sen.thp_st_min)
  let low0 := sen.tlp_st_min
  let line0 := high2 + low0
  let line1 :=
    if line0 < cam.tpi_st_min then cam.tpi_st_min
    else if line0 > cam.tpi_st_max then cam.tpi_st_max
    else line0
  let line2 := if line1 < sen.tpi_st_min then sen.tpi_st_min else line1
  let low1 := line2 - high2
  let low2 := if low1 < cam.tlp_st_min then cam.tlp_st_min else low1
  { res := if hlim then "NOK" else "OK",
    high_period := high2, low_period := low2, line_cycle := line2 }

/-- A timing-register write issued by `set_it` through the DLL.  Values are
truncated to the unsigned 32-bit range exactly as `c_uint32` does. -/
inductive DllWrite where
  | setStartPulseTime (v : ℤ)
  | setLineTime (v : ℤ)
deriving DecidableEq, Repr

/-- Result of `set_it`: the returned status, the register writes issued (in
order), and the updated `self.it_ms`. -/
structure SetItResult where
  res : String
  writes : List DllWrite
  it_ms : Option ℚ
deriving DecidableEq, Repr

/-- `set_it` from hama3_spectrometer.py (lines 344-404).  `dll` is the
transport oracle (answer of `get_error` for each write).  The interpolated
numbers in the source's error strings are elided; the out-of-limits branch
additionally appends a human-readable minimum-IT hint, also elided — the
driver only ever tests the status against `"OK"`. -/
def set_it (dll : DllWrite → String) (simulation_mode : Bool) (cur_it : Option ℚ)
    (it_ms clock : ℚ) (cam : CameraParams) (sen : DetectorParams) : SetItResult :=
  let p := compute_st_pulses it_ms clock cam sen
  if p.res = "OK" then
    if simulation_mode then { res := "OK", writes := [], it_ms := some it_ms }
    else
      let w1 := DllWrite.setStartPulseTime (cam.thp_st_min % 4294967296)
      let r1 := dll w1
      if r1 ≠ "OK" then
        { res := "set_it, Could not set preliminary Start Pulse Time, error: " ++ r1,
          writes := [w1], it_ms := cur_it }
      else
        let w2 := DllWrite.setLineTime (p.line_cycle % 4294967296)
        let r2 := dll w2
        if r2 ≠ "OK" then
          { res := "set_it, Could not set Line Time, error: " ++ r2,
            writes := [w1, w2], it_ms := cur_it }
        else
          let w3 := DllWrite.setStartPulseTime (p.high_period % 4294967296)
          let r3 := dll w3
          if r3 ≠ "OK" then
            { res := "set_it, Could not set Start Pulse Time, error: " ++ r3,
              writes := [w1, w2, w3], it_ms := cur_it }
          else { res := "OK", writes := [w1, w2, w3], it_ms := some it_ms }
  else { res := "Cannot set IT because is out of limits.", writes := [], it_ms := cur_it }

/-- A DLL oracle in which every register write succeeds. -/
def dllAllOK : DllWrite → String := fun _ => "OK"

/-- A float64 data value: `NaN` or an exact rational.  Cycle buffers, the
running sums and the reduction outputs are lists of these. -/
inductive F where
  | nan : F
  | q : ℚ → F
deriving DecidableEq, Repr

/-- `math.isnan` / `np.isnan` on one value. -/
def F.isNan : F → Bool
  | .nan => true
  | .q _ => false

/-- IEEE addition restricted to the values the driver produces. -/
def F.add : F → F → F
  | .q a, .q b => .q (a + b)
  | _, _ => .nan

/-- IEEE multiplication restricted to the values the driver produces. -/
def F.mul : F → F → F
  | .q a, .q b => .q (a * b)
  | _, _ => .nan

/-- IEEE subtraction restricted to the values the driver produces. -/
def F.sub : F → F → F
  | .q a, .q b => .q (a - b)
  | _, _ => .nan

/-- Division of a data value by a nonzero rational scalar (the cycle
count `n` in `calc_msl`). -/
def F.divQ : F → ℚ → F
  | .q a, c => .q (a / c)
  | .nan, _ => .nan

/-- `abs` on a data value. -/
def F.fabs : F → F
  | .q a => .q |a|
  | .nan => .nan

/-- IEEE `<`: any comparison with `NaN` is false. -/
def F.blt : F → F → Bool
  | .q a, .q b => decide (a < b)
  | _, _ => false

/-- IEEE `>=`: any comparison with `NaN` is false. -/
def F.bge : F → F → Bool
  | .q a, .q b => decide (b ≤ a)
  | _, _ => false

/-- Binary minimum with NaN propagation, the reduction step of
`np.ndarray.min`. -/
def F.fmin : F → F → F
  | .q a, .q b => .q (min a b)
  | _, _ => .nan

/-- Binary maximum with NaN propagation, the reduction step of
`np.ndarray.max`. -/
def F.fmax : F → F → F
  | .q a, .q b => .q (max a b)
  | _, _ => .nan

/-- `rc.min()` on a cycle buffer.  numpy raises on an empty array; the
claims only concern nonempty buffers, and the `[]` case is given the
(arbitrary) value `NaN`. -/
def listMin : List F → F
  | [] => F.nan
  | x :: xs => xs.foldl F.fmin x

/-- `rc.max()` on a cycle buffer (same conventions as `listMin`). -/
def listMax : List F → F
  | [] => F.nan
  | x :: xs => xs.foldl F.fmax x

/-- Elementwise vector sum, e.g. `self.sy + rc`. -/
def addV (u v : List F) : List F := List.zipWith F.add u v

/-- Elementwise vector product, e.g. `rc**2` as `mulV rc rc`. -/
def mulV (u v : List F) : List F := List.zipWith F.mul u v

/-- Scalar-by-vector product, e.g. `(ncy_read - 1) * rc`. -/
def smulV (c : ℚ) (v : List F) : List F := v.map (fun x => F.mul (F.q c) x)

/-- The driver state: the fields of `Hama3_Spectrometer.__init__` that the
measurement pipeline reads or writes.  Log/debug fields, timestamps, the
DLL handle, thread handles and the `read_data_queue` (whose only payload is
the requested `ncy` already passed explicitly here) are not modelled.  A
queued pack is carried as its list of per-cycle vectors — the flat buffer
that `np.split(rc, ncy_pack)` cuts into `ncy_pack` cycle vectors. -/
structure Hama3State where
  npix_active : ℕ
  nbits : ℕ
  discriminator_factor : ℚ
  eff_saturation_limit : ℚ
  abort_on_saturation : Bool
  max_ncy_per_meas : ℤ
  it_ms : Option ℚ
  ncy_requested : ℤ
  ncy_read : ℤ
  ncy_handled : ℤ
  ncy_saturated : ℤ
  sy : List F
  syy : List F
  sxy : List F
  rcm : List F
  rcs : List F
  rcl : List F
  docatch : Bool
  measuring : Bool
  meas_done : Bool
  error : String
  handle_data_queue : List (List (List F))
deriving DecidableEq, Repr

/-- `reset_spec_data` from hama3_spectrometer.py (lines 1212-1233): called
at the start of every new measurement; empties both queues and zeroes the
counters and the accumulator sums.  (The arrival-time / wall-clock fields
it also clears are not modelled.) -/
def reset_spec_data (st : Hama3State) : Hama3State :=
  { st with
    handle_data_queue := [],
    ncy_read := 0, ncy_handled := 0, ncy_saturated := 0,
    sy := List.replicate st.npix_active (F.q 0),
    syy := List.replicate st.npix_active (F.q 0),
    sxy := List.replicate st.npix_active (F.q 0) }

/-- The optional discriminator scaling applied at the top of
`handle_cycle_data`: `if self.discriminator_factor != 1: rc = rc * float(...)`. -/
def scale_rc (st : Hama3State) (rc : List F) : List F :=
  if st.discriminator_factor ≠ 1 then rc.map (fun v => F.mul v (F.q st.discriminator_factor))
  else rc

/-- `handle_cycle_data` from hama3_spectrometer.py (lines 1386-1441).
Returns the updated state and the `(issat, data_ok)` pair.  The blind-pixel
arguments are always `[]` for this device and are elided. -/
def handle_cycle_data (st : Hama3State) (ncy_read : ℤ) (rc0 : List F) :
    Hama3State × Bool × Bool :=
  let rc := scale_rc st rc0
  let rcmax := listMax rc
  let rcmin := listMin rc
  let data_ok : Bool :=
    if F.blt rcmin (F.q 0) then false
    else if rcmax.isNan || rcmin.isNan then false
    else true
  let issat : Bool := F.bge rcmax (F.q st.eff_saturation_limit)
  if (issat && st.abort_on_saturation) || !data_ok then (st, issat, data_ok)
  else
    ({ st with
        sy := addV st.sy rc,
        syy := addV st.syy (mulV rc rc),
        sxy := addV st.sxy (smulV ((ncy_read : ℚ) - 1) rc),
        ncy_handled := st.ncy_handled + 1,
        ncy_saturated := st.ncy_saturated + (if issat then 1 else 0) },
      issat, data_ok)

/-- `calc_msl` from src/drivers/spectrometer.py (lines 29-38, documented
there as the helper from `spec_xfus.py`; the real `spec_xfus.py` in this
repository only stubs the DLL loader).  The `alias` argument feeds logging
only and is elided; the index array `x` enters only through `n = len(x)`,
passed here directly.  The source's `std_dev` is the elementwise
`np.sqrt` of the quantity returned in the third component — the square
root of an arbitrary rational is irrational, so this embedding carries the
radicand `|syy/n - mean**2|` exactly and keeps every output computable;
`rms` is `np.zeros_like(mean)`. -/
def calc_msl (n : ℕ) (sxy sy syy : List F) : String × List F × List F × List F :=
  if n = 0 then ("OK", [], [], [])
  else
    let mean := sy.map (fun v => F.divQ v (n : ℚ))
    let stdSq := List.zipWith (fun a m => F.fabs (F.sub (F.divQ a (n : ℚ)) (F.mul m m))) syy mean
    let rms := mean.map (fun _ => F.q 0)
    ("OK", mean, stdSq, rms)

/-- `measurement_done` from hama3_spectrometer.py (lines 1443-1463): runs
the final reduction over the accumulated sums and sets the internal
measurement-done event.  (`meas_end_time` / `data_handling_end_time`
bookkeeping is not modelled.) -/
def measurement_done (st : Hama3State) : Hama3State :=
  let out := calc_msl st.ncy_handled.toNat st.sxy st.sy st.syy
  { st with rcm := out.2.1, rcs := out.2.2.1, rcl := out.2.2.2, meas_done := true }

/-- One cycle step of the reduction loop (`data_handling_watchdog`, lines
1351-1355): `self.ncy_read += 1` followed by
`handle_cycle_data(self.ncy_read, rc[i], ...)`. -/
def watchdog_cycle_step (st : Hama3State) (rc : List F) : Hama3State × Bool × Bool :=
  handle_cycle_data { st with ncy_read := st.ncy_read + 1 } (st.ncy_read + 1) rc

/-- The per-pack cycle loop of `data_handling_watchdog` (lines 1351-1384):
handle each cycle in order; on `(issat and abort_on_saturation) or not
data_ok` stop capturing (`docatch = False`), drain the handoff queue,
run `measurement_done` and stop; on `ncy_handled == ncy_requested` run
`measurement_done` and stop. -/
def handle_pack_cycles (st : Hama3State) : List (List F) → Hama3State
  | [] => st
  | rc :: rest =>
    let step := watchdog_cycle_step st rc
    let st2 := step.1
    let issat := step.2.1
    let data_ok := step.2.2
    if (issat && st2.abort_on_saturation) || !data_ok then
      measurement_done { st2 with docatch := false, handle_data_queue := [] }
    else if st2.ncy_handled = st2.ncy_requested then
      measurement_done st2
    else
      handle_pack_cycles st2 rest

/-- Observation predicate mirroring `handle_pack_cycles`: does processing
this pack reach a cycle whose `(issat, data_ok)` flags trigger the
saturation/validation abort (before the requested count completes)? -/
def pack_triggers_abort (st : Hama3State) : List (List F) → Bool
  | [] => false
  | rc :: rest =>
    let step := watchdog_cycle_step st rc
    let st2 := step.1
    let issat := step.2.1
    let data_ok := step.2.2
    if (issat && st2.abort_on_saturation) || !data_ok then true
    else if st2.ncy_handled = st2.ncy_requested then false
    else pack_triggers_abort st2 rest

/-- One iteration of the reduction loop on a dequeued pack (lines
1334-1384): data arriving while `docatch` is off is ignored; otherwise the
pack's cycles are handled in order.  `st.handle_data_queue` holds the packs
still queued behind this item. -/
def data_handling_step (st : Hama3State) (item : List (List F)) : Hama3State :=
  if !st.docatch then st else handle_pack_cycles st item

/-- Outcome of one `measure_pack` hardware call, abstracting the transport:
either the pack's data (already cut into per-cycle vectors) or the error
string `measure_pack` returns. -/
inductive CapOutcome where
  | ok (cycles : List (List F))
  | err (msg : String)
deriving DecidableEq, Repr

/-- Outcome of the per-pack attempt loop of `measure_blocking`
(hama3_spectrometer.py lines 759-788). -/
inductive AttemptResult where
  | captured (st : Hama3State)
  | abortedOK (st : Hama3State)
  | failed (st : Hama3State) (msg : String)
deriving DecidableEq, Repr

/-- The attempt loop of `measure_blocking` for one pack: up to
`ntry_per_call = 3` capture calls (`left` counts the remaining ones).  A
successful capture enqueues the pack for the reduction side; this
sequential model runs the reduction loop on it immediately — the one
schedule of the two-thread pipeline in which every pack is handled before
the next capture begins.  A failure observed with `docatch` already off is
converted to `"OK"` (the data was not going to be used); otherwise the
error is wrapped and the next attempt runs, and exhausting the attempts
produces the `"measure_blocking, measurement failed, ..."` error (call
indices inside the messages are elided). -/
def mb_attempts (cap : ℕ → ℕ → CapOutcome) (callIdx : ℕ) (st : Hama3State) :
    ℕ → ℕ → String → AttemptResult
  | _, 0, lastErr => .failed st ("measure_blocking, measurement failed, " ++ lastErr)
  | attempt, left + 1, _ =>
    match cap callIdx attempt with
    | .ok d => .captured (data_handling_step st d)
    | .err m =>
      if !st.docatch then .abortedOK st
      else mb_attempts cap callIdx st (attempt + 1) left
        ("Error happen at measurement call: " ++ m)

/-- The pack loop of `measure_blocking` (lines 752-788): iterate the pack
sizes from `split_cycles`, stopping as soon as `docatch` is off (an abort
or saturation stop), and stopping with the surfaced error when one pack
exhausts its retries.  The pack size itself only dimensions the hardware
buffer; the captured data comes from the `cap` oracle. -/
def mb_calls (cap : ℕ → ℕ → CapOutcome) (st : Hama3State) :
    List ℤ → ℕ → Hama3State × String
  | [], _ => (st, "OK")
  | _ :: rest, callIdx =>
    if !st.docatch then (st, "OK")
    else
      match mb_attempts cap callIdx st 1 3 "OK" with
      | .captured st2 => mb_calls cap st2 rest (callIdx + 1)
      | .abortedOK st2 => mb_calls cap st2 rest (callIdx + 1)
      | .failed st2 msg => (st2, msg)

/-- The state `measure_blocking` prepares before its pack loop (lines
731-750): clear the done event, set the measuring/docatch flags, record the
requested count and reset the per-measurement data. -/
def mb_init (st0 : Hama3State) (ncy : ℤ) : Hama3State :=
  reset_spec_data
    { st0 with meas_done := false, measuring := true, docatch := true, ncy_requested := ncy }

/-- Sequential model of one `measure_blocking(ncy)` call (lines 724-808)
composed with the error path of `data_arrival_watchdog` (lines 1303-1316),
which sets the done event when `measure_blocking` returns a non-OK status.
On the OK path the done event has already been set by the reduction loop
(`measurement_done`) before `wait_for_measurement` returns. -/
def measure_blocking_model (cap : ℕ → ℕ → CapOutcome) (st0 : Hama3State) (ncy : ℤ) :
    Hama3State :=
  let st := mb_init st0 ncy
  let packs := split_cycles st.max_ncy_per_meas ncy
  let r := mb_calls cap st packs 0
  let st1 := r.1
  let res := r.2
  let st2 := if res = "OK" then st1 else { st1 with handle_data_queue := [] }
  let st3 := { st2 with measuring := false, error := res }
  if res = "OK" then st3 else { st3 with meas_done := true }

/-- `wait_for_measurement` (lines 810-818): once the done event is set it
returns the last error status. -/
def wait_for_measurement (st : Hama3State) : String := st.error

/-- The operations the recovery ladder issues, in the order `recovery`
(hama3_spectrometer.py lines 648-719) performs them. -/
inductive RecOp where
  | abortOp
  | setItOp
  | disconnectOp (dofree : Bool)
  | resetDeviceOp
  | connectOp
deriving DecidableEq, Repr

/-- Trailing part of one `recovery` iteration (the `if res != "OK"` hard
branch, lines 694-717): disconnect — tearing the DLL session down
(`dofree`) only on the first iteration and only when requested — then the
vendor hardware reset for supported device types (its status is immediately
overwritten), then a full reconnect.  Returns the reconnect status and the
extended operation trace. -/
def recovery_hard (env : ℕ → RecOp → String) (devtype : Option String) (dofree : Bool)
    (i : ℕ) (tr : List (ℕ × RecOp)) : String × List (ℕ × RecOp) :=
  let dofree_now := i = 0 ∧ dofree
  let tr1 := tr ++ [(i, RecOp.disconnectOp (decide dofree_now))]
  let tr2 := if devtype = some "C13015-01" then tr1 ++ [(i, RecOp.resetDeviceOp)] else tr1
  (env i RecOp.connectOp, tr2 ++ [(i, RecOp.connectOp)])

/-- The bounded attempt loop of `recovery`: at most `ntry` iterations,
`fuel` of them remaining, `i` the current iteration index, `res` the status
carried in from the previous iteration (initially `"NOK"`, line 667). -/
def recovery_loop (env : ℕ → RecOp → String) (devtype : Option String) (dofree : Bool) :
    ℕ → ℕ → String → List (ℕ × RecOp) → String × List (ℕ × RecOp)
  | _, 0, res, tr => (res, tr)
  | i, fuel + 1, _, tr =>
    let soft := ¬ (i = 0 ∧ dofree)
    let r1 := if soft then env i RecOp.abortOp else "NOK"
    let tr1 := if soft then tr ++ [(i, RecOp.abortOp)] else tr
    if r1 = "OK" then
      let r2 := env i RecOp.setItOp
      let tr2 := tr1 ++ [(i, RecOp.setItOp)]
      if r2 = "OK" then ("OK", tr2)
      else
        let h := recovery_hard env devtype dofree i tr2
        if h.1 = "OK" then ("OK", h.2)
        else recovery_loop env devtype dofree (i + 1) fuel h.1 h.2
    else
      let h := recovery_hard env devtype dofree i tr1
      if h.1 = "OK" then ("OK", h.2)
      else recovery_loop env devtype dofree (i + 1) fuel h.1 h.2

/-- `recovery(ntry, dofree)` from hama3_spectrometer.py (lines 648-719),
with each sub-operation (abort / set_it(last it) / disconnect /
reset_device / connect) abstracted by the `env` oracle and recorded in an
operation trace.  Soft attempt: abort then re-assert the last integration
time; both OK breaks out with `"OK"`.  Any failure escalates to
`recovery_hard` in the same iteration; a successful reconnect breaks out
with `"OK"`, otherwise the next iteration runs, up to `ntry` in total. -/
def recovery (env : ℕ → RecOp → String) (devtype : Option String)
    (ntry : ℕ) (dofree : Bool) : String × List (ℕ × RecOp) :=
  recovery_loop env devtype dofree 0 ntry "NOK" []

/-- The cycle-counter invariant of the accumulator:
`0 ≤ ncy_saturated ≤ ncy_handled ≤ ncy_read`. -/
def SpecInv (st : Hama3State) : Prop :=
  0 ≤ st.ncy_saturated ∧ st.ncy_saturated ≤ st.ncy_handled ∧ st.ncy_handled ≤ st.ncy_read

/-- Modelled from the spec: the per-pixel residual sum of squares of the
least-squares straight line fitted over the cycle index sequence
`x = 0, 1, ..., n-1`, computed from the accumulated `sum_idx_y` (`sxy`),
`sum_y` (`sy`) and `sum_y2` (`syy`) of one pixel.  This is the quantity
whose square root the spec's `noise_line_fit_rms` is built from; the
source's `calc_msl` (an explicit "Dummy implementation") returns zeros
instead and never reads `sxy`. -/
def lineFitResidualSS (n : ℕ) (sxy sy syy : ℚ) : ℚ :=
  let nn : ℚ := n
  let sx : ℚ := nn * (nn - 1) / 2
  let sxx : ℚ := nn * (nn - 1) * (2 * nn - 1) / 6
  let sxxc : ℚ := sxx - sx ^ 2 / nn
  let syc : ℚ := syy - sy ^ 2 / nn
  let sxyc : ℚ := sxy - sx * sy / nn
  syc - sxyc ^ 2 / sxxc

/-- The per-cycle validation/saturation/accumulation contract of
`handle_cycle_data` on the (optionally scaled) cycle vector:
rejection exactly on a negative or NaN value, saturation exactly on a
value at or above the effective saturation limit, no state change plus an
abort-triggering flag pair on `(issat and abort_on_saturation) or not
data_ok`, and otherwise the three-sum accumulation with the two counter
increments. -/
def handle_cycle_spec (st : Hama3State) (n : ℤ) (rc0 : List F) : Prop :=
  let y := scale_rc st rc0
  let out := handle_cycle_data st n rc0
  let st2 := out.1
  let issat := out.2.1
  let data_ok := out.2.2
  (data_ok = false ↔ (∃ a : ℚ, F.q a ∈ y ∧ a < 0) ∨ y.any F.isNan = true) ∧
  (issat = true ↔ (y.any F.isNan = false ∧ ∃ a : ℚ, F.q a ∈ y ∧ st.eff_saturation_limit ≤ a)) ∧
  (((issat && st.abort_on_saturation) || !data_ok) = true → st2 = st) ∧
  (((issat && st.abort_on_saturation) || !data_ok) = false →
    st2.sy = addV st.sy y ∧
    st2.syy = addV st.syy (mulV y y) ∧
    st2.sxy = addV st.sxy (smulV ((n : ℚ) - 1) y) ∧
    st2.ncy_handled = st.ncy_handled + 1 ∧
    st2.ncy_saturated = st.ncy_saturated + (if issat then 1 else 0) ∧
    st2.ncy_read = st.ncy_read ∧ st2.docatch = st.docatch ∧ st2.error = st.error)

/-- What the reduction loop guarantees after a saturation/validation
abort: capture stopped, handoff queue drained, final reduction performed
over the sums accumulated before the abort, completion signalled, error
status untouched. -/
def abort_handling_spec (st : Hama3State) (item : List (List F)) : Prop :=
  let st2 := data_handling_step st item
  let out := calc_msl st2.ncy_handled.toNat st2.sxy st2.sy st2.syy
  st2.docatch = false ∧
  st2.handle_data_queue = [] ∧
  st2.meas_done = true ∧
  st2.error = st.error ∧
  st2.rcm = out.2.1 ∧ st2.rcs = out.2.2.1 ∧ st2.rcl = out.2.2.2

/-- A small concrete device state (one pixel, 16-bit, packs of two cycles)
used to instantiate the general theorems. -/
def sampleState : Hama3State :=
  { npix_active := 1, nbits := 16,
    discriminator_factor := 1, eff_saturation_limit := 65535,
    abort_on_saturation := true, max_ncy_per_meas := 2, it_ms := none,
    ncy_requested := 0, ncy_read := 0, ncy_handled := 0, ncy_saturated := 0,
    sy := [F.q 0], syy := [F.q 0], sxy := [F.q 0],
    rcm := [], rcs := [], rcl := [],
    docatch := false, measuring := false, meas_done := false,
    error := "OK", handle_data_queue := [] }

/-- A capture oracle whose every pack is a single saturated cycle. -/
def capSat : ℕ → ℕ → CapOutcome := fun _ _ => CapOutcome.ok [[F.q 70000]]

/-- A capture oracle in which every capture call fails. -/
def capFail : ℕ → ℕ → CapOutcome := fun _ _ => CapOutcome.err "transport down"

/-- A recovery environment in which every sub-operation succeeds. -/
def envAllOK : ℕ → RecOp → String := fun _ _ => "OK"

/-- A recovery environment in which the first iteration's abort and
reconnect fail, and everything afterwards succeeds (soft recovery fails
once, the ladder escalates, and the second iteration's soft attempt
recovers). -/
def envSoftFailHardOK : ℕ → RecOp → String := fun i op =>
  if i = 0 then
    match op with
    | RecOp.abortOp => "abort failed"
    | RecOp.connectOp => "connect failed"
    | _ => "OK"
  else "OK"

/-- A recovery environment in which every sub-operation fails. -/
def envAllFail : ℕ → RecOp → String := fun _ _ => "NOPE"

lemma split_cycles_go_nonpos (m : ℤ) (fuel : ℕ) (ncy : ℤ) (h : ncy ≤ 0) :
    split_cycles_go m fuel ncy = [] := by
  cases fuel with
  | zero => rfl
  | succ n => simp only [split_cycles_go, if_neg (by omega : ¬ 0 < ncy)]

lemma split_cycles_go_sum (m : ℤ) (hm : 1 ≤ m) :
    ∀ fuel (ncy : ℤ), ncy.toNat ≤ fuel → 0 ≤ ncy →
      (split_cycles_go m fuel ncy).sum = ncy := by
  intro fuel
  induction fuel with
  | zero =>
    intro ncy hf h0
    have : ncy = 0 := by omega
    subst this
    rfl
  | succ n ih =>
    intro ncy hf h0
    by_cases hpos : 0 < ncy
    · rcases min_choice ncy m with hc | hc <;>
      · simp only [split_cycles_go, if_pos hpos, List.sum_cons]
        rw [ih (ncy - min ncy m) (by omega) (by omega)]
        omega
    · have : ncy = 0 := by omega
      subst this
      rfl

lemma split_cycles_go_mem (m : ℤ) (hm : 1 ≤ m) :
    ∀ fuel (ncy : ℤ), 0 ≤ ncy → ∀ x ∈ split_cycles_go m fuel ncy, 1 ≤ x ∧ x ≤ m := by
  intro fuel
  induction fuel with
  | zero => intro ncy _ x hx; simp [split_cycles_go] at hx
  | succ n ih =>
    intro ncy h0 x hx
    by_cases hpos : 0 < ncy
    · simp only [split_cycles_go, if_pos hpos, List.mem_cons] at hx
      rcases hx with hx | hx
      · subst hx
        rcases min_choice ncy m with hc | hc <;> omega
      · exact ih (ncy - min ncy m) (by rcases min_choice ncy m with hc | hc <;> omega) x hx
    · simp [split_cycles_go, if_neg hpos] at hx

lemma split_cycles_go_dropLast (m : ℤ) (hm : 1 ≤ m) :
    ∀ fuel (ncy : ℤ), ncy.toNat ≤ fuel →
      ∀ x ∈ (split_cycles_go m fuel ncy).dropLast, x = m := by
  intro fuel
  induction fuel with
  | zero => intro ncy _ x hx; simp [split_cycles_go] at hx
  | succ n ih =>
    intro ncy hf x hx
    by_cases hpos : 0 < ncy
    · simp only [split_cycles_go, if_pos hpos] at hx
      by_cases hrest : ncy - min ncy m ≤ 0
      · rw [split_cycles_go_nonpos m n _ hrest] at hx
        simp at hx
      · have hmin : min ncy m = m := by
          rcases min_choice ncy m with hc | hc <;> omega
        have hne : split_cycles_go m n (ncy - min ncy m) ≠ [] := by
          cases n with
          | zero => omega
          | succ k =>
            simp only [split_cycles_go, if_pos (by omega : 0 < ncy - min ncy m)]
            exact List.cons_ne_nil _ _
        rw [List.dropLast_cons_of_ne_nil hne, List.mem_cons] at hx
        rcases hx with hx | hx
        · omega
        · exact ih (ncy - min ncy m) (by omega) x hx
    · simp [split_cycles_go, if_neg hpos] at hx

lemma split_cycles_go_len_bounds (m : ℤ) (hm : 1 ≤ m) :
    ∀ fuel (ncy : ℤ), ncy.toNat ≤ fuel → 0 < ncy →
      ncy ≤ ((split_cycles_go m fuel ncy).length : ℤ) * m ∧
      (((split_cycles_go m fuel ncy).length : ℤ) - 1) * m < ncy := by
  intro fuel
  induction fuel with
  | zero => intro ncy hf h0; omega
  | succ n ih =>
    intro ncy hf h0
    simp only [split_cycles_go, if_pos h0, List.length_cons]
    by_cases hrest : ncy - min ncy m ≤ 0
    · have hle : ncy ≤ m := by omega
      rw [split_cycles_go_nonpos m n _ hrest]
      simp only [List.length_nil]
      push_cast
      constructor <;> linarith
    · have hmin : min ncy m = m := by omega
      rw [hmin]
      obtain ⟨h1, h2⟩ := ih (ncy - m) (by omega) (by omega)
      push_cast
      constructor <;> linarith

/-- C1.  For every `total ≥ 0` and `max_per_call ≥ 1`,
`split_cycles(max_per_call, total)` returns an ordered list of pack sizes
summing to `total`, each between 1 and `max_per_call`, of length
`⌈total / max_per_call⌉` (0 packs when `total = 0`), in which every pack
but the last equals `max_per_call`; and any `total ≤ 0` yields `[]`. -/
theorem split_cycles_pack_decomposition (m t : ℤ) (hm : 1 ≤ m) :
    (t ≤ 0 → split_cycles m t = []) ∧
    (0 ≤ t →
      (split_cycles m t).sum = t ∧
      (∀ x ∈ split_cycles m t, 1 ≤ x ∧ x ≤ m) ∧
      (((split_cycles m t).length : ℤ) = ⌈(t : ℚ) / (m : ℚ)⌉) ∧
      (∀ x ∈ (split_cycles m t).dropLast, x = m)) := by
  constructor
  · intro ht
    simp [split_cycles, if_pos ht]
  · intro ht
    by_cases h0 : t ≤ 0
    · have ht0 : t = 0 := le_antisymm h0 ht
      subst ht0
      refine ⟨by simp [split_cycles], by simp [split_cycles], ?_, by simp [split_cycles]⟩
      simp [split_cycles]
    · have hpos : 0 < t := by omega
      have hunfold : split_cycles m t = split_cycles_go m t.toNat t := by
        simp [split_cycles, if_neg h0]
      refine ⟨?_, ?_, ?_, ?_⟩
      · rw [hunfold]; exact split_cycles_go_sum m hm t.toNat t le_rfl ht
      · rw [hunfold]; exact split_cycles_go_mem m hm t.toNat t ht
      · rw [hunfold]
        obtain ⟨h1, h2⟩ := split_cycles_go_len_bounds m hm t.toNat t le_rfl hpos
        have hmq : (0 : ℚ) < (m : ℚ) := by exact_mod_cast (by omega : (0 : ℤ) < m)
        have h1q : (t : ℚ) ≤ ((split_cycles_go m t.toNat t).length : ℚ) * (m : ℚ) := by
          exact_mod_cast h1
        have h2q : (((split_cycles_go m t.toNat t).length : ℚ) - 1) * (m : ℚ) < (t : ℚ) := by
          exact_mod_cast h2
        symm
        rw [Int.ceil_eq_iff]
        constructor
        · push_cast
          rw [lt_div_iff hmq]
          linarith
        · push_cast
          rw [div_le_iff hmq]
          linarith
      · rw [hunfold]; exact split_cycles_go_dropLast m hm t.toNat t le_rfl

/-- Witness for C1 at `max_per_call = 3`, `total = 7`:
packs `[3, 3, 1]`. -/
theorem split_cycles_pack_decomposition_witness :
    (split_cycles 3 7).sum = 7 ∧
    (∀ x ∈ split_cycles 3 7, 1 ≤ x ∧ x ≤ 3) ∧
    (((split_cycles 3 7).length : ℤ) = ⌈(7 : ℚ) / (3 : ℚ)⌉) ∧
    (∀ x ∈ (split_cycles 3 7).dropLast, x = 3) :=
  (split_cycles_pack_decomposition 3 7 (by decide)).2 (by decide)

lemma pyRound_ge_floor (x : ℚ) : ⌊x⌋ ≤ pyRound x := by
  simp only [pyRound]
  split_ifs <;> omega

lemma pyRound_le_floor_add_one (x : ℚ) : pyRound x ≤ ⌊x⌋ + 1 := by
  simp only [pyRound]
  split_ifs <;> omega

lemma pyRound_mono {x y : ℚ} (h : x ≤ y) : pyRound x ≤ pyRound y := by
  have hfl : ⌊x⌋ ≤ ⌊y⌋ := Int.floor_le_floor h
  rcases eq_or_lt_of_le hfl with hf | hf
  · have hr : x - (⌊x⌋ : ℚ) ≤ y - (⌊y⌋ : ℚ) := by
      rw [← hf]
      linarith
    simp only [pyRound]
    rw [← hf]
    split_ifs with h1 h2 h3 h4 h5 h6 h7 h8 h9 h10 h11 h12 h13 <;>
      first
      | omega
      | (exfalso; linarith)
  · calc pyRound x ≤ ⌊x⌋ + 1 := pyRound_le_floor_add_one x
      _ ≤ ⌊y⌋ := by omega
      _ ≤ pyRound y := pyRound_ge_floor y

lemma pyRound_intCast (n : ℤ) : pyRound (n : ℚ) = n := by
  simp only [pyRound, Int.floor_intCast]
  norm_num

lemma raw_high_period_eval (it_ms clock : ℚ) (sen : DetectorParams) (n : ℤ)
    (h : it_ms / 1000 * (clock * 1000000) = (n : ℚ)) :
    raw_high_period it_ms clock sen = n - sen.it_offset_clk := by
  unfold raw_high_period
  rw [h, pyRound_intCast]

/-- C8.  Whenever the raw high period (`round(it_ms · f_clk) -
it_offset_clk`) falls below the floor — the larger of the camera and
sensor minimum high periods — `compute_st_pulses` returns the non-OK
("limited") status `"NOK"` and a `high_period` equal to that floor
exactly. -/
theorem compute_st_pulses_floor_clamp (it_ms clock : ℚ)
    (cam : CameraParams) (sen : DetectorParams)
    (h : raw_high_period it_ms clock sen < max cam.thp_st_min sen.thp_st_min) :
    (compute_st_pulses it_ms clock cam sen).res = "NOK" ∧
    (compute_st_pulses it_ms clock cam sen).high_period =
      max cam.thp_st_min sen.thp_st_min := by
  unfold compute_st_pulses
  by_cases h1 : raw_high_period it_ms clock sen < cam.thp_st_min
  · by_cases h2 : cam.thp_st_min < sen.thp_st_min
    · simp only [if_pos h1, if_pos h2, decide_eq_true_eq]
      refine ⟨by simp [h1], by omega⟩
    · simp only [if_pos h1, if_neg h2]
      refine ⟨by simp [h1], by omega⟩
  · have h2 : raw_high_period it_ms clock sen < sen.thp_st_min := by omega
    simp only [if_neg h1, if_pos h2]
    refine ⟨by simp [h2], by omega⟩

/-- Witness for C8: requesting `it_ms = 0.001` on the C13015-01/S13496
tables at 10 MHz (raw high period `10 - 48 = -38`, floor `10`). -/
theorem compute_st_pulses_floor_clamp_witness :
    (compute_st_pulses (1/1000) 10 cameraC13015 detectorS13496).res = "NOK" ∧
    (compute_st_pulses (1/1000) 10 cameraC13015 detectorS13496).high_period =
      max cameraC13015.thp_st_min detectorS13496.thp_st_min :=
  compute_st_pulses_floor_clamp (1/1000) 10 cameraC13015 detectorS13496 (by
    rw [raw_high_period_eval (1/1000) 10 detectorS13496 10 (by norm_num)]
    decide)

/-- C9.  Timing monotonicity: for `it_ms1 < it_ms2` both above the
achievable floor (raw high period at or above both device minima), the
high period computed for `it_ms1` is at most the one computed for
`it_ms2`, all other arguments held fixed. -/
theorem compute_st_pulses_monotone (it1 it2 clock : ℚ)
    (cam : CameraParams) (sen : DetectorParams)
    (hlt : it1 < it2) (hclock : 0 ≤ clock)
    (hfloor1 : max cam.thp_st_min sen.thp_st_min ≤ raw_high_period it1 clock sen)
    (hfloor2 : max cam.thp_st_min sen.thp_st_min ≤ raw_high_period it2 clock sen) :
    (compute_st_pulses it1 clock cam sen).high_period ≤
    (compute_st_pulses it2 clock cam sen).high_period := by
  have hraw : raw_high_period it1 clock sen ≤ raw_high_period it2 clock sen := by
    unfold raw_high_period
    have harg : it1 / 1000 * (clock * 1000000) ≤ it2 / 1000 * (clock * 1000000) := by
      have h1 : it1 / 1000 ≤ it2 / 1000 := by linarith
      have h2 : (0 : ℚ) ≤ clock * 1000000 := by positivity
      exact mul_le_mul_of_nonneg_right h1 h2
    have := pyRound_mono harg
    omega
  unfold compute_st_pulses
  simp only [if_neg (by omega : ¬ raw_high_period it1 clock sen < cam.thp_st_min),
    if_neg (by omega : ¬ raw_high_period it1 clock sen < sen.thp_st_min),
    if_neg (by omega : ¬ raw_high_period it2 clock sen < cam.thp_st_min),
    if_neg (by omega : ¬ raw_high_period it2 clock sen < sen.thp_st_min)]
  exact hraw

/-- Witness for C9 at `it_ms = 100` and `it_ms = 200` on the
C13015-01/S13496 tables at 10 MHz. -/
theorem compute_st_pulses_monotone_witness :
    (compute_st_pulses 100 10 cameraC13015 detectorS13496).high_period ≤
    (compute_st_pulses 200 10 cameraC13015 detectorS13496).high_period :=
  compute_st_pulses_monotone 100 200 10 cameraC13015 detectorS13496
    (by norm_num) (by norm_num)
    (by rw [raw_high_period_eval 100 10 detectorS13496 1000000 (by norm_num)]; decide)
    (by rw [raw_high_period_eval 200 10 detectorS13496 2000000 (by norm_num)]; decide)

/-- C2 (amended).  Whenever `compute_st_pulses` reports a non-OK status
(the requested integration time was unachievable and the high period was
clamped), the caller `set_it` treats it as an error, not as "actual
integration time will be longer": it performs no timing-register writes,
leaves the recorded integration time unchanged, and returns the
out-of-limits error instead of `"OK"`. -/
theorem set_it_rejects_limited_timing (dll : DllWrite → String) (sim : Bool)
    (cur : Option ℚ) (it clock : ℚ) (cam : CameraParams) (sen : DetectorParams)
    (h : (compute_st_pulses it clock cam sen).res ≠ "OK") :
    set_it dll sim cur it clock cam sen =
      { res := "Cannot set IT because is out of limits.", writes := [], it_ms := cur } ∧
    (set_it dll sim cur it clock cam sen).res ≠ "OK" := by
  constructor
  · unfold set_it
    rw [if_neg h]
  · unfold set_it
    rw [if_neg h]
    show "Cannot set IT because is out of limits." ≠ "OK"
    decide

/-- Witness for the amended C2 at `it_ms = 0.001`, all register writes
succeeding, previously recorded integration time `2.4` ms. -/
theorem set_it_rejects_limited_timing_witness :
    set_it dllAllOK false (some (12/5)) (1/1000) 10 cameraC13015 detectorS13496 =
      { res := "Cannot set IT because is out of limits.", writes := [],
        it_ms := some (12/5) } ∧
    (set_it dllAllOK false (some (12/5)) (1/1000) 10 cameraC13015 detectorS13496).res ≠ "OK" :=
  set_it_rejects_limited_timing dllAllOK false (some (12/5)) (1/1000) 10
    cameraC13015 detectorS13496 (by
      have h := compute_st_pulses_floor_clamp (1/1000) 10 cameraC13015 detectorS13496 (by
        rw [raw_high_period_eval (1/1000) 10 detectorS13496 10 (by norm_num)]
        decide)
      rw [h.1]
      decide)

/-- Counterexample to C2 as stated: at `it_ms = 0.001` (below the floor)
`compute_st_pulses` returns the non-OK status, and `set_it` — with every
DLL register write succeeding — programs no timing registers, leaves the
recorded integration time unchanged, and returns an error rather than
"OK", contradicting "set_it still programs the device timing registers and
records the integration time instead of returning an error". -/
theorem set_it_limited_programs_nothing_cex :
    (compute_st_pulses (1/1000) 10 cameraC13015 detectorS13496).res ≠ "OK" ∧
    ¬ ((set_it dllAllOK false (some (12/5)) (1/1000) 10 cameraC13015 detectorS13496).res = "OK" ∧
       (set_it dllAllOK false (some (12/5)) (1/1000) 10 cameraC13015 detectorS13496).writes ≠ [] ∧
       (set_it dllAllOK false (some (12/5)) (1/1000) 10 cameraC13015
          detectorS13496).it_ms = some (1/1000)) := by
  have hraw : raw_high_period (1/1000) 10 detectorS13496 = -38 := by
    rw [raw_high_period_eval (1/1000) 10 detectorS13496 10 (by norm_num)]
    decide
  have h := compute_st_pulses_floor_clamp (1/1000) 10 cameraC13015 detectorS13496 (by
    rw [hraw]; decide)
  have hne : (compute_st_pulses (1/1000) 10 cameraC13015 detectorS13496).res ≠ "OK" := by
    rw [h.1]; decide
  refine ⟨hne, ?_⟩
  unfold set_it
  rw [if_neg hne]
  intro hc
  exact absurd hc.1 (by decide)

lemma F.fmin_isNan (u v : F) : (F.fmin u v).isNan = (u.isNan || v.isNan) := by
  cases u <;> cases v <;> rfl

lemma F.fmax_isNan (u v : F) : (F.fmax u v).isNan = (u.isNan || v.isNan) := by
  cases u <;> cases v <;> rfl

lemma foldl_fmin_isNan (xs : List F) : ∀ x : F,
    (xs.foldl F.fmin x).isNan = (x.isNan || xs.any F.isNan) := by
  induction xs with
  | nil => intro x; simp
  | cons z zs ih =>
    intro x
    simp only [List.foldl_cons, ih (F.fmin x z), F.fmin_isNan, List.any_cons]
    cases x.isNan <;> cases z.isNan <;> simp

lemma foldl_fmax_isNan (xs : List F) : ∀ x : F,
    (xs.foldl F.fmax x).isNan = (x.isNan || xs.any F.isNan) := by
  induction xs with
  | nil => intro x; simp
  | cons z zs ih =>
    intro x
    simp only [List.foldl_cons, ih (F.fmax x z), F.fmax_isNan, List.any_cons]
    cases x.isNan <;> cases z.isNan <;> simp

lemma foldl_fmin_no_nan (xs : List F) : ∀ a : ℚ, xs.any F.isNan = false →
    ∃ mn : ℚ, xs.foldl F.fmin (F.q a) = F.q mn ∧ (mn = a ∨ F.q mn ∈ xs) ∧ mn ≤ a ∧
      ∀ b : ℚ, F.q b ∈ xs → mn ≤ b := by
  induction xs with
  | nil =>
    intro a _
    exact ⟨a, rfl, Or.inl rfl, le_refl a, by simp⟩
  | cons z zs ih =>
    intro a hnn
    simp only [List.any_cons, Bool.or_eq_false_iff] at hnn
    cases z with
    | nan => simp [F.isNan] at hnn
    | q c =>
      obtain ⟨mn, h1, h2, h3, h4⟩ := ih (min a c) hnn.2
      refine ⟨mn, ?_, ?_, ?_, ?_⟩
      · simpa only [List.foldl_cons, F.fmin] using h1
      · rcases h2 with h | h
        · rcases min_cases a c with ⟨he, _⟩ | ⟨he, _⟩
          · exact Or.inl (h.trans he)
          · exact Or.inr (by rw [h, he]; exact List.mem_cons_self _ _)
        · exact Or.inr (List.mem_cons_of_mem _ h)
      · exact h3.trans (min_le_left a c)
      · intro b hb
        rcases List.mem_cons.mp hb with hb | hb
        · have hbc : b = c := by injection hb
          exact hbc ▸ (h3.trans (min_le_right a c))
        · exact h4 b hb

lemma foldl_fmax_no_nan (xs : List F) : ∀ a : ℚ, xs.any F.isNan = false →
    ∃ mx : ℚ, xs.foldl F.fmax (F.q a) = F.q mx ∧ (mx = a ∨ F.q mx ∈ xs) ∧ a ≤ mx ∧
      ∀ b : ℚ, F.q b ∈ xs → b ≤ mx := by
  induction xs with
  | nil =>
    intro a _
    exact ⟨a, rfl, Or.inl rfl, le_refl a, by simp⟩
  | cons z zs ih =>
    intro a hnn
    simp only [List.any_cons, Bool.or_eq_false_iff] at hnn
    cases z with
    | nan => simp [F.isNan] at hnn
    | q c =>
      obtain ⟨mx, h1, h2, h3, h4⟩ := ih (max a c) hnn.2
      refine ⟨mx, ?_, ?_, ?_, ?_⟩
      · simpa only [List.foldl_cons, F.fmax] using h1
      · rcases h2 with h | h
        · rcases max_cases a c with ⟨he, _⟩ | ⟨he, _⟩
          · exact Or.inl (h.trans he)
          · exact Or.inr (by rw [h, he]; exact List.mem_cons_self _ _)
        · exact Or.inr (List.mem_cons_of_mem _ h)
      · exact (le_max_left a c).trans h3
      · intro b hb
        rcases List.mem_cons.mp hb with hb | hb
        · have hbc : b = c := by injection hb
          exact hbc ▸ ((le_max_right a c).trans h3)
        · exact h4 b hb

lemma listMin_nan (l : List F) (h : l ≠ []) : (listMin l).isNan = l.any F.isNan := by
  cases l with
  | nil => exact absurd rfl h
  | cons x xs => simp only [listMin, foldl_fmin_isNan, List.any_cons]

lemma listMax_nan (l : List F) (h : l ≠ []) : (listMax l).isNan = l.any F.isNan := by
  cases l with
  | nil => exact absurd rfl h
  | cons x xs => simp only [listMax, foldl_fmax_isNan, List.any_cons]

lemma listMin_no_nan (l : List F) (hne : l ≠ []) (hnn : l.any F.isNan = false) :
    ∃ mn : ℚ, listMin l = F.q mn ∧ F.q mn ∈ l ∧ ∀ b : ℚ, F.q b ∈ l → mn ≤ b := by
  cases l with
  | nil => exact absurd rfl hne
  | cons x xs =>
    simp only [List.any_cons, Bool.or_eq_false_iff] at hnn
    cases x with
    | nan => simp [F.isNan] at hnn
    | q a =>
      obtain ⟨mn, h1, h2, h3, h4⟩ := foldl_fmin_no_nan xs a hnn.2
      refine ⟨mn, h1, ?_, ?_⟩
      · rcases h2 with h | h
        · rw [h]; exact List.mem_cons_self _ _
        · exact List.mem_cons_of_mem _ h
      · intro b hb
        rcases List.mem_cons.mp hb with hb | hb
        · have hba : b = a := by injection hb
          exact hba ▸ h3
        · exact h4 b hb

lemma listMax_no_nan (l : List F) (hne : l ≠ []) (hnn : l.any F.isNan = false) :
    ∃ mx : ℚ, listMax l = F.q mx ∧ F.q mx ∈ l ∧ ∀ b : ℚ, F.q b ∈ l → b ≤ mx := by
  cases l with
  | nil => exact absurd rfl hne
  | cons x xs =>
    simp only [List.any_cons, Bool.or_eq_false_iff] at hnn
    cases x with
    | nan => simp [F.isNan] at hnn
    | q a =>
      obtain ⟨mx, h1, h2, h3, h4⟩ := foldl_fmax_no_nan xs a hnn.2
      refine ⟨mx, h1, ?_, ?_⟩
      · rcases h2 with h | h
        · rw [h]; exact List.mem_cons_self _ _
        · exact List.mem_cons_of_mem _ h
      · intro b hb
        rcases List.mem_cons.mp hb with hb | hb
        · have hba : b = a := by injection hb
          exact hba ▸ h3
        · exact h4 b hb

lemma scale_rc_ne_nil (st : Hama3State) (rc0 : List F) (h : rc0 ≠ []) :
    scale_rc st rc0 ≠ [] := by
  unfold scale_rc
  split
  · simpa using h
  · exact h

lemma handle_cycle_data_cases (st : Hama3State) (n : ℤ) (rc0 : List F) :
    handle_cycle_data st n rc0 =
      (let y := scale_rc st rc0
       let dok : Bool :=
         if F.blt (listMin y) (F.q 0) then false
         else if (listMax y).isNan || (listMin y).isNan then false
         else true
       let issat : Bool := F.bge (listMax y) (F.q st.eff_saturation_limit)
       if (issat && st.abort_on_saturation) || !dok then (st, issat, dok)
       else
        ({ st with
            sy := addV st.sy y,
            syy := addV st.syy (mulV y y),
            sxy := addV st.sxy (smulV ((n : ℚ) - 1) y),
            ncy_handled := st.ncy_handled + 1,
            ncy_saturated := st.ncy_saturated + (if issat then 1 else 0) },
          issat, dok)) := rfl



/-- The full validation/accumulation contract, proved once and shared by
the per-cycle and invariant theorems. -/
lemma handle_cycle_spec_of_ne_nil (st : Hama3State) (n : ℤ) (rc0 : List F)
    (hne : rc0 ≠ []) : handle_cycle_spec st n rc0 := by
  have hyne : scale_rc st rc0 ≠ [] := scale_rc_ne_nil st rc0 hne
  simp only [handle_cycle_spec, handle_cycle_data_cases, apply_ite Prod.snd, ite_self,
    apply_ite Prod.fst]
  refine ⟨?_, ?_, ?_, ?_⟩
  · -- data_ok = false ↔ negative value or NaN present
    cases hnan : (scale_rc st rc0).any F.isNan with
    | true =>
      have hminN : listMin (scale_rc st rc0) = F.nan := by
        have h1 := listMin_nan _ hyne
        rw [hnan] at h1
        cases hm : listMin (scale_rc st rc0) with
        | nan => rfl
        | q a => rw [hm] at h1; simp [F.isNan] at h1
      rw [hminN]
      simp [F.blt, F.isNan, listMax_nan _ hyne, hnan]
    | false =>
      obtain ⟨mn, hmnEq, hmnMem, hmnBnd⟩ := listMin_no_nan _ hyne hnan
      obtain ⟨mx, hmxEq, hmxMem, hmxBnd⟩ := listMax_no_nan _ hyne hnan
      rw [hmnEq, hmxEq]
      simp only [F.blt, F.isNan, Bool.or_false, decide_eq_true_eq, Bool.false_eq_true,
        if_false, hnan, or_false]
      by_cases h0 : mn < 0
      · rw [if_pos h0]
        exact Iff.intro (fun _ => ⟨mn, hmnMem, h0⟩) (fun _ => rfl)
      · rw [if_neg h0]
        constructor
        · intro hc
          exact absurd hc (by simp)
        · rintro ⟨a, hmem, ha⟩
          exact absurd (lt_of_le_of_lt (hmnBnd a hmem) ha) h0
  · -- saturated ↔ NaN-free and max ≥ limit
    cases hnan : (scale_rc st rc0).any F.isNan with
    | true =>
      have hmaxN : listMax (scale_rc st rc0) = F.nan := by
        have h1 := listMax_nan _ hyne
        rw [hnan] at h1
        cases hm : listMax (scale_rc st rc0) with
        | nan => rfl
        | q a => rw [hm] at h1; simp [F.isNan] at h1
      rw [hmaxN]
      simp [F.bge, hnan]
    | false =>
      obtain ⟨mx, hmxEq, hmxMem, hmxBnd⟩ := listMax_no_nan _ hyne hnan
      rw [hmxEq]
      simp only [F.bge, decide_eq_true_eq, hnan]
      constructor
      · intro hle
        exact ⟨by simp [hnan], mx, hmxMem, hle⟩
      · rintro ⟨-, a, hmem, hle⟩
        exact hle.trans (hmxBnd a hmem)
  · -- abort-triggering flags: state unchanged
    intro hc
    rw [if_pos hc]
  · -- accumulate branch
    intro hc
    rw [if_neg (by rw [hc]; exact Bool.false_ne_true)]
    exact ⟨rfl, rfl, rfl, rfl, rfl, rfl, rfl, rfl⟩

/-- C3.  `handle_cycle_data` on a nonempty cycle vector: after the optional
discriminator scaling, `data_ok` is false exactly when the vector has a
negative value or contains a NaN; the cycle is flagged saturated exactly
when (NaN-free and) its maximum is at or above the effective saturation
limit; on `(saturated and abort_on_saturation) or not data_ok` the state —
sums and counters included — is left unchanged (the caller uses the same
flag pair to trigger early termination); otherwise the three sums
accumulate `y`, `y²` and `(idx-1)·y`, `cycles_handled` is incremented, and
`cycles_saturated` is incremented exactly when the cycle is saturated. -/
theorem handle_cycle_data_validation_policy (st : Hama3State) (n : ℤ) (rc0 : List F)
    (hne : rc0 ≠ []) : handle_cycle_spec st n rc0 :=
  handle_cycle_spec_of_ne_nil st n rc0 hne

/-- Witness for C3: one ordinary in-range cycle value on the sample
device state. -/
theorem handle_cycle_data_validation_policy_witness :
    handle_cycle_spec sampleState 1 [F.q 5] :=
  handle_cycle_data_validation_policy sampleState 1 [F.q 5] (by decide)


lemma handle_cycle_data_nil (st : Hama3State) (n : ℤ) :
    handle_cycle_data st n [] = (st, false, false) := by
  have hscale : scale_rc st [] = ([] : List F) := by
    unfold scale_rc
    split <;> rfl
  rw [handle_cycle_data_cases]
  simp [hscale, listMin, listMax, F.blt, F.bge, F.isNan]

/-- C10.  `reset_spec_data` re-establishes the three counters at 0 and the
three accumulator sums at zero vectors (so the counter chain
`0 ≤ cycles_saturated ≤ cycles_handled ≤ cycles_read` holds); every
reduction-loop cycle step (`ncy_read += 1` then `handle_cycle_data`)
preserves the chain; and the sums change only on a step that increments
`cycles_handled`. -/
theorem accumulator_counter_invariants :
    (∀ st : Hama3State,
      SpecInv (reset_spec_data st) ∧
      (reset_spec_data st).ncy_read = 0 ∧
      (reset_spec_data st).ncy_handled = 0 ∧
      (reset_spec_data st).ncy_saturated = 0 ∧
      (reset_spec_data st).sy = List.replicate st.npix_active (F.q 0) ∧
      (reset_spec_data st).syy = List.replicate st.npix_active (F.q 0) ∧
      (reset_spec_data st).sxy = List.replicate st.npix_active (F.q 0)) ∧
    (∀ (st : Hama3State) (rc : List F),
      SpecInv st → SpecInv (watchdog_cycle_step st rc).1) ∧
    (∀ (st : Hama3State) (rc : List F),
      (watchdog_cycle_step st rc).1.ncy_handled = st.ncy_handled →
      (watchdog_cycle_step st rc).1.sy = st.sy ∧
      (watchdog_cycle_step st rc).1.syy = st.syy ∧
      (watchdog_cycle_step st rc).1.sxy = st.sxy) := by
  have key : ∀ (st : Hama3State) (rc : List F),
      ((watchdog_cycle_step st rc).1 = { st with ncy_read := st.ncy_read + 1 }) ∨
      ((watchdog_cycle_step st rc).1.ncy_handled = st.ncy_handled + 1 ∧
        ((watchdog_cycle_step st rc).1.ncy_saturated = st.ncy_saturated ∨
          (watchdog_cycle_step st rc).1.ncy_saturated = st.ncy_saturated + 1) ∧
        (watchdog_cycle_step st rc).1.ncy_read = st.ncy_read + 1) := by
    intro st rc
    by_cases hrc : rc = []
    · subst hrc
      rw [watchdog_cycle_step, handle_cycle_data_nil]
      exact Or.inl rfl
    · have hspec := handle_cycle_spec_of_ne_nil
        { st with ncy_read := st.ncy_read + 1 } (st.ncy_read + 1) rc hrc
      simp only [handle_cycle_spec] at hspec
      obtain ⟨-, -, habort, hacc⟩ := hspec
      rw [watchdog_cycle_step]
      cases hc : ((handle_cycle_data { st with ncy_read := st.ncy_read + 1 }
          (st.ncy_read + 1) rc).2.1 &&
          st.abort_on_saturation ||
          !(handle_cycle_data { st with ncy_read := st.ncy_read + 1 }
            (st.ncy_read + 1) rc).2.2) with
      | true =>
        exact Or.inl (habort hc)
      | false =>
        obtain ⟨-, -, -, hh, hs, hr, -, -⟩ := hacc hc
        refine Or.inr ⟨hh, ?_, hr⟩
        rw [hs]
        cases hb : (handle_cycle_data { st with ncy_read := st.ncy_read + 1 }
            (st.ncy_read + 1) rc).2.1 with
        | true => right; simp
        | false => left; simp
  refine ⟨?_, ?_, ?_⟩
  · intro st
    exact ⟨⟨le_refl 0, le_refl 0, le_refl 0⟩, rfl, rfl, rfl, rfl, rfl, rfl⟩
  · intro st rc hinv
    obtain ⟨h1, h2, h3⟩ := hinv
    rcases key st rc with heq | ⟨hh, hs, hr⟩
    · rw [heq]
      refine ⟨h1, h2, ?_⟩
      show st.ncy_handled ≤ st.ncy_read + 1
      omega
    · rcases hs with hs | hs <;> exact ⟨by omega, by omega, by omega⟩
  · intro st rc heq
    by_cases hrc : rc = []
    · subst hrc
      rw [watchdog_cycle_step, handle_cycle_data_nil]
      exact ⟨rfl, rfl, rfl⟩
    · have hspec := handle_cycle_spec_of_ne_nil
        { st with ncy_read := st.ncy_read + 1 } (st.ncy_read + 1) rc hrc
      simp only [handle_cycle_spec] at hspec
      obtain ⟨-, -, habort, hacc⟩ := hspec
      rw [watchdog_cycle_step] at heq ⊢
      cases hc : ((handle_cycle_data { st with ncy_read := st.ncy_read + 1 }
          (st.ncy_read + 1) rc).2.1 &&
          st.abort_on_saturation ||
          !(handle_cycle_data { st with ncy_read := st.ncy_read + 1 }
            (st.ncy_read + 1) rc).2.2) with
      | true =>
        rw [habort hc]
        exact ⟨rfl, rfl, rfl⟩
      | false =>
        obtain ⟨-, -, -, hh, -, -, -, -⟩ := hacc hc
        rw [hh] at heq
        omega

/-- Witness for C10: the preservation step applied to the sample state and
one in-range cycle value. -/
theorem accumulator_counter_invariants_witness :
    SpecInv (watchdog_cycle_step sampleState [F.q 5]).1 :=
  accumulator_counter_invariants.2.1 sampleState [F.q 5]
    ⟨by decide, by decide, by decide⟩

/-- C5.  Evaluation of the final reduction at a concrete accumulator
(three accepted single-pixel cycles with values 0, 0, 3, so `sum_y = 3`,
`sum_y2 = 9`, `sum_idx_y = 6`): the mean is `sum_y/n = 1` and the
squared std is `|sum_y2/n - mean²| = 2` as the claim states, and for
`n = 0` every output is a defined empty value; but the returned rms
vector is identically zero even though the residual sum of squares of the
least-squares line through `(0,0), (1,0), (2,3)` is `3/2 ≠ 0` — the
source's `calc_msl` is an explicit "Dummy implementation" that never
computes the claimed per-pixel line-fit residual RMS and never reads
`sum_idx_y`. -/
theorem calc_msl_rms_stub_divergence :
    calc_msl 3 [F.q 6] [F.q 3] [F.q 9] = ("OK", [F.q 1], [F.q 2], [F.q 0]) ∧
    lineFitResidualSS 3 6 3 9 = 3/2 ∧
    ¬ lineFitResidualSS 3 6 3 9 = 0 ∧
    calc_msl 0 [] [] [] = ("OK", [], [], []) := by
  refine ⟨?_, ?_, ?_, rfl⟩
  · simp only [calc_msl, F.divQ, F.fabs, F.sub, F.mul]
    norm_num
  · simp only [lineFitResidualSS]
    norm_num
  · simp only [lineFitResidualSS]
    norm_num

/-- C7.  Concrete runs of the recovery ladder, `ntry = 3`:
(1) soft recovery — abort then re-asserting the last integration time —
succeeds immediately and `recovery` returns OK after exactly those two
operations; (2) the first iteration's abort and reconnect fail: the ladder
escalates in the same iteration to disconnect (interface not torn down) /
vendor hardware reset (C13015-01 is a supported device type) / reconnect,
and the second iteration's soft attempt recovers with overall result OK;
(3) with `dofree` requested, the first iteration skips the soft attempt and
tears the shared interface down in its hard step; (4) when every operation
fails, exactly `ntry = 3` iterations run (trace indices 0, 1, 2) and the
failure is returned.  The driver maintains no `recovery_level` attribute
anywhere, so nothing is reset to 0 on success. -/
theorem recovery_ladder_behavior :
    recovery envAllOK (some "C13015-01") 3 false =
      ("OK", [(0, RecOp.abortOp), (0, RecOp.setItOp)]) ∧
    recovery envSoftFailHardOK (some "C13015-01") 3 false =
      ("OK", [(0, RecOp.abortOp), (0, RecOp.disconnectOp false), (0, RecOp.resetDeviceOp),
        (0, RecOp.connectOp), (1, RecOp.abortOp), (1, RecOp.setItOp)]) ∧
    recovery envAllOK (some "C13015-01") 3 true =
      ("OK", [(0, RecOp.disconnectOp true), (0, RecOp.resetDeviceOp), (0, RecOp.connectOp)]) ∧
    recovery envAllFail none 3 false =
      ("NOPE", [(0, RecOp.abortOp), (0, RecOp.disconnectOp false), (0, RecOp.connectOp),
        (1, RecOp.abortOp), (1, RecOp.disconnectOp false), (1, RecOp.connectOp),
        (2, RecOp.abortOp), (2, RecOp.disconnectOp false), (2, RecOp.connectOp)]) := by
  refine ⟨rfl, rfl, rfl, rfl⟩

lemma handle_cycle_data_preserves (st : Hama3State) (n : ℤ) (rc0 : List F) :
    (handle_cycle_data st n rc0).1.docatch = st.docatch ∧
    (handle_cycle_data st n rc0).1.error = st.error ∧
    (handle_cycle_data st n rc0).1.handle_data_queue = st.handle_data_queue ∧
    (handle_cycle_data st n rc0).1.abort_on_saturation = st.abort_on_saturation ∧
    (handle_cycle_data st n rc0).1.ncy_requested = st.ncy_requested ∧
    (handle_cycle_data st n rc0).1.meas_done = st.meas_done := by
  simp only [handle_cycle_data_cases, apply_ite Prod.fst, apply_ite Hama3State.docatch,
    apply_ite Hama3State.error, apply_ite Hama3State.handle_data_queue,
    apply_ite Hama3State.abort_on_saturation, apply_ite Hama3State.ncy_requested,
    apply_ite Hama3State.meas_done, ite_self]
  exact ⟨trivial, trivial, trivial, trivial, trivial, trivial⟩

lemma mb_calls_stopped (cap : ℕ → ℕ → CapOutcome) (st : Hama3State)
    (packs : List ℤ) (idx : ℕ) (h : st.docatch = false) :
    mb_calls cap st packs idx = (st, "OK") := by
  cases packs with
  | nil => rfl
  | cons p rest => simp [mb_calls, h]

lemma abort_spec_of_triggers : ∀ (item : List (List F)) (st : Hama3State),
    st.docatch = true → pack_triggers_abort st item = true →
    abort_handling_spec st item := by
  intro item
  induction item with
  | nil =>
    intro st hd ht
    simp [pack_triggers_abort] at ht
  | cons rc rest ih =>
    intro st hd ht
    have hpres := handle_cycle_data_preserves
      { st with ncy_read := st.ncy_read + 1 } (st.ncy_read + 1) rc
    simp only [abort_handling_spec, data_handling_step, hd, Bool.not_true, if_false,
      Bool.false_eq_true]
    simp only [pack_triggers_abort, watchdog_cycle_step] at ht
    simp only [handle_pack_cycles, watchdog_cycle_step]
    revert ht
    cases hc : ((handle_cycle_data { st with ncy_read := st.ncy_read + 1 }
        (st.ncy_read + 1) rc).2.1 &&
        (handle_cycle_data { st with ncy_read := st.ncy_read + 1 }
          (st.ncy_read + 1) rc).1.abort_on_saturation ||
        !(handle_cycle_data { st with ncy_read := st.ncy_read + 1 }
          (st.ncy_read + 1) rc).2.2) with
    | true =>
      intro _
      simp only [if_pos rfl]
      refine ⟨rfl, rfl, rfl, ?_, rfl, rfl, rfl⟩
      exact hpres.2.1
    | false =>
      intro ht
      have hfneq : ¬ (false = true) := Bool.false_ne_true
      rw [if_neg hfneq] at ht ⊢
      by_cases hreq : (handle_cycle_data { st with ncy_read := st.ncy_read + 1 }
          (st.ncy_read + 1) rc).1.ncy_handled =
          (handle_cycle_data { st with ncy_read := st.ncy_read + 1 }
            (st.ncy_read + 1) rc).1.ncy_requested
      · rw [if_pos hreq] at ht
        exact absurd ht Bool.false_ne_true
      · rw [if_neg hreq] at ht ⊢
        have hd2 : (handle_cycle_data { st with ncy_read := st.ncy_read + 1 }
            (st.ncy_read + 1) rc).1.docatch = true := by
          rw [hpres.1]
          exact hd
        have hrec := ih (handle_cycle_data { st with ncy_read := st.ncy_read + 1 }
            (st.ncy_read + 1) rc).1 hd2 ht
        simp only [abort_handling_spec, data_handling_step, hd2, Bool.not_true, if_false,
          Bool.false_eq_true] at hrec
        refine ⟨hrec.1, hrec.2.1, hrec.2.2.1, ?_, hrec.2.2.2.2.1,
          hrec.2.2.2.2.2.1, hrec.2.2.2.2.2.2⟩
        rw [hrec.2.2.2.1, hpres.2.1]

lemma split_cycles_ne_nil (m ncy : ℤ) (hm : 1 ≤ m) (hn : 1 ≤ ncy) :
    ∃ p rest, split_cycles m ncy = p :: rest := by
  unfold split_cycles
  rw [if_neg (by omega : ¬ ncy ≤ 0)]
  cases hk : ncy.toNat with
  | zero => omega
  | succ k =>
    simp only [split_cycles_go, if_pos (by omega : (0:ℤ) < ncy)]
    exact ⟨_, _, rfl⟩

/-- C4.  The saturation/validation abort is a defined termination mode:
(i) whenever a handled cycle of a dequeued pack triggers the abort
condition, the reduction loop clears `docatch`, drains and discards every
already-queued pack, performs the final reduction over the sums
accumulated before the abort, signals completion, and leaves the error
status untouched; (ii) once `docatch` is off, the capture loop issues no
further captures and exits with `"OK"`; (iii) end to end, a measurement
whose first pack triggers the abort finishes with `wait_for_measurement`
returning `"OK"` — not a driver error — with the completion event set and
capture stopped. -/
theorem saturation_abort_defined_termination :
    (∀ (st : Hama3State) (item : List (List F)),
      st.docatch = true → pack_triggers_abort st item = true →
      abort_handling_spec st item) ∧
    (∀ (cap : ℕ → ℕ → CapOutcome) (st : Hama3State) (packs : List ℤ) (idx : ℕ),
      st.docatch = false → mb_calls cap st packs idx = (st, "OK")) ∧
    (∀ (cap : ℕ → ℕ → CapOutcome) (st0 : Hama3State) (ncy : ℤ) (D : List (List F)),
      1 ≤ st0.max_ncy_per_meas → 1 ≤ ncy →
      cap 0 1 = CapOutcome.ok D →
      pack_triggers_abort (mb_init st0 ncy) D = true →
      wait_for_measurement (measure_blocking_model cap st0 ncy) = "OK" ∧
      (measure_blocking_model cap st0 ncy).meas_done = true ∧
      (measure_blocking_model cap st0 ncy).docatch = false) := by
  refine ⟨fun st item hd ht => abort_spec_of_triggers item st hd ht,
    fun cap st packs idx h => mb_calls_stopped cap st packs idx h, ?_⟩
  intro cap st0 ncy D hmax hncy hcap htrig
  have hd0 : (mb_init st0 ncy).docatch = true := rfl
  have hspec := abort_spec_of_triggers D (mb_init st0 ncy) hd0 htrig
  simp only [abort_handling_spec] at hspec
  obtain ⟨hdoc, hq, hdone, herr, -⟩ := hspec
  obtain ⟨p, rest, hsplit⟩ := split_cycles_ne_nil (mb_init st0 ncy).max_ncy_per_meas ncy hmax hncy
  have hcalls : mb_calls cap (mb_init st0 ncy)
      (split_cycles (mb_init st0 ncy).max_ncy_per_meas ncy) 0 =
      (data_handling_step (mb_init st0 ncy) D, "OK") := by
    rw [hsplit]
    simp only [mb_calls, hd0, Bool.not_true, Bool.false_eq_true, if_false]
    have hatt : mb_attempts cap 0 (mb_init st0 ncy) 1 3 "OK" =
        AttemptResult.captured (data_handling_step (mb_init st0 ncy) D) := by
      simp only [mb_attempts]
      rw [hcap]
    rw [hatt]
    exact mb_calls_stopped cap _ rest 1 hdoc
  have hmodel : measure_blocking_model cap st0 ncy =
      { data_handling_step (mb_init st0 ncy) D with measuring := false, error := "OK" } := by
    simp only [measure_blocking_model, hcalls]
    rfl
  rw [hmodel]
  exact ⟨rfl, hdone, hdoc⟩

/-- Witness for C4: a one-cycle measurement on the sample state whose
single captured cycle is saturated (70000 ≥ 65535) with
abort-on-saturation enabled. -/
theorem saturation_abort_defined_termination_witness :
    wait_for_measurement (measure_blocking_model capSat sampleState 1) = "OK" ∧
    (measure_blocking_model capSat sampleState 1).meas_done = true ∧
    (measure_blocking_model capSat sampleState 1).docatch = false :=
  saturation_abort_defined_termination.2.2 capSat sampleState 1 [[F.q 70000]]
    (by decide) (by decide) rfl (by decide)

lemma mb_fail_msg_ne_ok (s : String) :
    ("measure_blocking, measurement failed, " ++ s) ≠ "OK" := by
  intro h
  have hlen := congrArg String.length h
  rw [String.length_append] at hlen
  have h1 : ("measure_blocking, measurement failed, " : String).length = 38 := rfl
  have h2 : ("OK" : String).length = 2 := rfl
  omega

lemma mb_attempts_all_fail (cap : ℕ → ℕ → CapOutcome) (st : Hama3State) (idx : ℕ)
    (m1 m2 m3 : String) (hd : st.docatch = true)
    (h1 : cap idx 1 = CapOutcome.err m1) (h2 : cap idx 2 = CapOutcome.err m2)
    (h3 : cap idx 3 = CapOutcome.err m3) :
    mb_attempts cap idx st 1 3 "OK" =
      AttemptResult.failed st ("measure_blocking, measurement failed, " ++
        ("Error happen at measurement call: " ++ m3)) := by
  simp only [mb_attempts, h1, h2, h3, hd, Bool.not_true, Bool.false_eq_true, if_false]

/-- C6.  Failed captures: (i) the per-pack retry loop makes at most three
attempts — with the transport failing on attempts 1, 2 and 3 it returns
the `failed` outcome wrapping the last error, the driver state untouched;
(ii) the pack loop then stops — no further packs are captured — and
surfaces that error; (iii) end to end, with every capture of the first
pack failing, `wait_for_measurement` returns a non-OK status, the
completion event is set, pending queued data is discarded, and
`cycles_handled < requested_cycles`. -/
theorem capture_retry_exhaustion_aborts :
    (∀ (cap : ℕ → ℕ → CapOutcome) (st : Hama3State) (idx : ℕ) (m1 m2 m3 : String),
      st.docatch = true →
      cap idx 1 = CapOutcome.err m1 → cap idx 2 = CapOutcome.err m2 →
      cap idx 3 = CapOutcome.err m3 →
      mb_attempts cap idx st 1 3 "OK" =
        AttemptResult.failed st ("measure_blocking, measurement failed, " ++
          ("Error happen at measurement call: " ++ m3))) ∧
    (∀ (cap : ℕ → ℕ → CapOutcome) (st : Hama3State) (p : ℤ) (rest : List ℤ)
      (idx : ℕ) (m1 m2 m3 : String),
      st.docatch = true →
      cap idx 1 = CapOutcome.err m1 → cap idx 2 = CapOutcome.err m2 →
      cap idx 3 = CapOutcome.err m3 →
      mb_calls cap st (p :: rest) idx =
        (st, "measure_blocking, measurement failed, " ++
          ("Error happen at measurement call: " ++ m3))) ∧
    (∀ (cap : ℕ → ℕ → CapOutcome) (st0 : Hama3State) (ncy : ℤ) (m1 m2 m3 : String),
      1 ≤ st0.max_ncy_per_meas → 1 ≤ ncy →
      cap 0 1 = CapOutcome.err m1 → cap 0 2 = CapOutcome.err m2 →
      cap 0 3 = CapOutcome.err m3 →
      wait_for_measurement (measure_blocking_model cap st0 ncy) ≠ "OK" ∧
      (measure_blocking_model cap st0 ncy).ncy_handled < ncy ∧
      (measure_blocking_model cap st0 ncy).meas_done = true ∧
      (measure_blocking_model cap st0 ncy).handle_data_queue = []) := by
  have hcalls : ∀ (cap : ℕ → ℕ → CapOutcome) (st : Hama3State) (p : ℤ) (rest : List ℤ)
      (idx : ℕ) (m1 m2 m3 : String),
      st.docatch = true →
      cap idx 1 = CapOutcome.err m1 → cap idx 2 = CapOutcome.err m2 →
      cap idx 3 = CapOutcome.err m3 →
      mb_calls cap st (p :: rest) idx =
        (st, "measure_blocking, measurement failed, " ++
          ("Error happen at measurement call: " ++ m3)) := by
    intro cap st p rest idx m1 m2 m3 hd h1 h2 h3
    simp only [mb_calls, hd, Bool.not_true, Bool.false_eq_true, if_false]
    rw [mb_attempts_all_fail cap st idx m1 m2 m3 hd h1 h2 h3]
  refine ⟨fun cap st idx m1 m2 m3 hd h1 h2 h3 =>
      mb_attempts_all_fail cap st idx m1 m2 m3 hd h1 h2 h3,
    fun cap st p rest idx m1 m2 m3 hd h1 h2 h3 =>
      hcalls cap st p rest idx m1 m2 m3 hd h1 h2 h3, ?_⟩
  intro cap st0 ncy m1 m2 m3 hmax hncy h1 h2 h3
  obtain ⟨p, rest, hsplit⟩ :=
    split_cycles_ne_nil (mb_init st0 ncy).max_ncy_per_meas ncy hmax hncy
  have hne := mb_fail_msg_ne_ok ("Error happen at measurement call: " ++ m3)
  have hmodel : measure_blocking_model cap st0 ncy =
      { mb_init st0 ncy with
          handle_data_queue := [], measuring := false,
          error := "measure_blocking, measurement failed, " ++
            ("Error happen at measurement call: " ++ m3),
          meas_done := true } := by
    simp only [measure_blocking_model, hsplit,
      hcalls cap (mb_init st0 ncy) p rest 0 m1 m2 m3 rfl h1 h2 h3]
    rw [if_neg hne, if_neg hne]
  rw [hmodel]
  refine ⟨hne, ?_, rfl, rfl⟩
  show (0 : ℤ) < ncy
  omega

/-- Witness for C6: a one-cycle measurement on the sample state with a
transport that fails every capture attempt. -/
theorem capture_retry_exhaustion_aborts_witness :
    wait_for_measurement (measure_blocking_model capFail sampleState 1) ≠ "OK" ∧
    (measure_blocking_model capFail sampleState 1).ncy_handled < 1 ∧
    (measure_blocking_model capFail sampleState 1).meas_done = true ∧
    (measure_blocking_model capFail sampleState 1).handle_data_queue = [] :=
  capture_retry_exhaustion_aborts.2.2 capFail sampleState 1
    "transport down" "transport down" "transport down"
    (by decide) (by decide) rfl rfl rfl
